import Mathlib

/-!
Shallow embedding of the Mastermind game engine
(`src/mastermind/mod.rs`) and verification of the specification's
claims about it.

Rust `Vec<Colour>` becomes `List Colour`; `usize` becomes `Nat`
(`usize::MAX` is modelled for a 64-bit target); `Result<T, E>`
becomes `Except E T`.  The mutable `&mut self` methods become
functions `State → State × result`: the returned `State` is the
value of `self` after the call, on the error path as well as on the
success path, mirroring that in Rust mutations performed before an
early `return Err(..)` persist.  The win/lose callback closures are
modelled by counters (`winCount`, `loseCount`) counting how often
each hook has fired, and the terminal `println!` of a score is
modelled as the `Option (Nat × Nat)` component of the result.
`rand::thread_rng` is modelled as a stream of naturals `rng : Nat → Nat`
together with a cursor `rngIdx`; each `rng.gen::<usize>()` call reads
the stream at the cursor and advances it.
-/

/-- The `Colour` enum from the source. -/
inductive Colour where
  | Red
  | Orange
  | Blue
  | White
  | Yellow
  | Green
deriving DecidableEq

/-- The static `COLOURS` slice, in source order. -/
def COLOURS : List Colour :=
  [Colour.Red, Colour.Blue, Colour.White, Colour.Yellow, Colour.Green, Colour.Orange]

/-- Model of Rust `char::to_ascii_lowercase`: lowercases ASCII
uppercase letters only, leaves every other character unchanged. -/
def toAsciiLowercase (c : Char) : Char :=
  if 65 ≤ c.toNat ∧ c.toNat ≤ 90 then Char.ofNat (c.toNat + 32) else c

/-- The `match` on the lowercased first character in
`Colour::from_str`. -/
def charToColour (c : Char) : Except String Colour :=
  if c = 'r' then .ok Colour.Red
  else if c = 'b' then .ok Colour.Blue
  else if c = 'w' then .ok Colour.White
  else if c = 'y' then .ok Colour.Yellow
  else if c = 'g' then .ok Colour.Green
  else if c = 'o' then .ok Colour.Orange
  else .error ("Invalid initial character: `" ++ String.singleton c ++ "`")

/-- `Colour::from_str`: takes the first character of the text (error
if empty), ASCII-lowercases it and matches it against the colour
letters.  Strings are modelled as lists of characters. -/
def Colour.from_str (text : List Char) : Except String Colour :=
  match text with
  | [] => .error "Input too short!"
  | c :: _ => charToColour (toAsciiLowercase c)

/-- Number of bytes of the UTF-8 encoding of a character; models
Rust's `char::len_utf8` / the byte width that `&text[1..]` must
respect. -/
def utf8Len (c : Char) : Nat :=
  if c.toNat ≤ 0x7F then 1
  else if c.toNat ≤ 0x7FF then 2
  else if c.toNat ≤ 0xFFFF then 3
  else 4

/-- `std::usize::MAX` on a 64-bit target. -/
def USIZE_MAX : Nat := 2 ^ 64 - 1

/-- The duplicate-mode error message produced by `State::matching`. -/
def dupMsg : String := "Cannot have duplicated when using non-duplicate mode!"

/-- One position of the scoring fold shared by both branches of
`State::matching`: if the value occurs anywhere in `pegs`, credit an
exact match when it sits at the same index and a colour-only match
otherwise. -/
def scorePos (pegs : List Colour) (acc : Nat × Nat) (idx : Nat) (val : Colour) : Nat × Nat :=
  if val ∈ pegs then
    if pegs.getD idx Colour.Red = val then (acc.1 + 1, acc.2) else (acc.1, acc.2 + 1)
  else acc

/-- The `fold` of the `allow_duplicates` branch of `State::matching`
(index-carrying loop over the player's colours).  The `getD` default
is never consulted in the embedded program: `idx` stays below
`pegs.length` whenever the guess is no longer than the secret. -/
def matchingGoDup (pegs : List Colour) (idx : Nat) (acc : Nat × Nat) :
    List Colour → Nat × Nat
  | [] => acc
  | val :: rest => matchingGoDup pegs (idx + 1) (scorePos pegs acc idx val) rest

/-- The `try_fold` of the non-duplicate branch of `State::matching`:
before scoring each colour it is checked against the `seen`
accumulator and pushed onto it. -/
def matchingGoNoDup (pegs : List Colour) (seen : List Colour) (idx : Nat) (acc : Nat × Nat) :
    List Colour → Except String (Nat × Nat)
  | [] => .ok acc
  | val :: rest =>
    if val ∈ seen then .error dupMsg
    else matchingGoNoDup pegs (seen ++ [val]) (idx + 1) (scorePos pegs acc idx val) rest

/-- `State::matching` with the player's sequence passed explicitly
(the guess evaluator of the spec). -/
def matchingPlayer (pegs : List Colour) (allow_duplicates : Bool) (player : List Colour) :
    Except String (Nat × Nat) :=
  if !allow_duplicates then matchingGoNoDup pegs [] 0 (0, 0) player
  else .ok (matchingGoDup pegs 0 (0, 0) player)

/-- One draw of the `allow_duplicates` branch of
`State::generate_new_pegs`: `choice_pegs[rng.gen::<usize>() % choice_pegs.len()]`
repeated `size` times over the unchanged `COLOURS` list. -/
def genDup (rng : Nat → Nat) (i : Nat) : Nat → List Colour
  | 0 => []
  | n + 1 => COLOURS.getD (rng i % COLOURS.length) Colour.Red :: genDup rng (i + 1) n

/-- The non-duplicate branch of `State::generate_new_pegs`:
`choice_pegs.remove(rng.gen::<usize>() % choice_pegs.len())` repeated
`size` times; `remove` returns the element at the index and deletes
it.  The `getD` default is never consulted when `size` is at most
the number of available colours, which `State::new` guarantees. -/
def genNoDup (rng : Nat → Nat) (i : Nat) (avail : List Colour) : Nat → List Colour
  | 0 => []
  | n + 1 =>
    avail.getD (rng i % avail.length) Colour.Red ::
      genNoDup rng (i + 1) (avail.eraseIdx (rng i % avail.length)) n

/-- `State::generate_new_pegs`, consuming `size` draws of the rng
stream starting at cursor `i`. -/
def generate_new_pegs (size : Nat) (allow_duplicates : Bool) (rng : Nat → Nat) (i : Nat) :
    List Colour :=
  if allow_duplicates then genDup rng i size else genNoDup rng i COLOURS size

/-- The `State` struct.  `winCount` / `loseCount` count firings of the
`win` / `lose` hooks; `rng` / `rngIdx` model the entropy source. -/
@[ext]
structure State where
  pegs : List Colour
  previously_chosen : List (List Colour)
  previous_games : List (List Colour × Nat × Bool)
  size_pegs : Nat
  allow_duplicates : Bool
  buffered_input : List Colour
  max_tries : Option Nat
  winCount : Nat
  loseCount : Nat
  terminal : Bool
  rng : Nat → Nat
  rngIdx : Nat

/-- `State::matching(idx)`: scores `previously_chosen[idx]` when an
index is given (never done by the program) and the buffered input
otherwise. -/
def State.matching (s : State) (idx : Option Nat) : Except String (Nat × Nat) :=
  matchingPlayer s.pegs s.allow_duplicates
    (match idx with
     | some x => s.previously_chosen.getD x []
     | none => s.buffered_input)

/-- `State::reset`: clear the attempt history and the buffer and
regenerate the secret with the session's size and mode. -/
def State.reset (s : State) : State :=
  { s with
    previously_chosen := []
    buffered_input := []
    pegs := generate_new_pegs s.size_pegs s.allow_duplicates s.rng s.rngIdx
    rngIdx := s.rngIdx + s.size_pegs }

/-- `State::finish_try`.  Result: the state after the call, and either
the error string or `(game_over, reported_score)` where the reported
score is the pair printed in terminal mode on a continuing round. -/
def State.finish_try (s : State) : State × Except String (Bool × Option (Nat × Nat)) :=
  if s.buffered_input = s.pegs then
    (State.reset
      { s with
        winCount := s.winCount + 1
        previous_games := s.previous_games ++ [(s.pegs, s.previously_chosen.length, true)] },
     .ok (true, none))
  else if s.max_tries.getD USIZE_MAX = s.previously_chosen.length + 1 then
    (State.reset
      { s with
        loseCount := s.loseCount + 1
        previous_games := s.previous_games ++ [(s.pegs, s.previously_chosen.length, false)] },
     .ok (true, none))
  else if s.terminal then
    match s.matching none with
    | .error e => (s, .error e)
    | .ok m =>
      ({ s with
         previously_chosen := s.previously_chosen ++ [s.buffered_input]
         buffered_input := [] },
       .ok (false, some m))
  else
    ({ s with
       previously_chosen := s.previously_chosen ++ [s.buffered_input]
       buffered_input := [] },
     .ok (false, none))

/-- `State::input_buffer`: push the colour and finish the try when the
buffer's length reaches `size_pegs`. -/
def State.input_buffer (s : State) (value : Colour) :
    State × Except String (Bool × Option (Nat × Nat)) :=
  let s1 : State := { s with buffered_input := s.buffered_input ++ [value] }
  if s1.buffered_input.length = s1.size_pegs then s1.finish_try
  else (s1, .ok (false, none))

/-- The loop body of `State::push_string_input`.  `none` marks the
place where `&text[1..]` would split a multi-byte character and the
Rust program would abort; otherwise the move to `text[1..]` is the
move to the remaining characters, because the consumed first
character occupies exactly one byte. -/
def pushStringGo (s : State) (acc : Bool) :
    List Char → Option (State × Except (String × Bool) Bool)
  | [] => some (s, .ok acc)
  | c :: rest =>
    match Colour.from_str (c :: rest) with
    | .error e => some (s, .error (e, acc))
    | .ok col =>
      match s.input_buffer col with
      | (s1, .error e) => some (s1, .error (e, acc))
      | (s1, .ok (reset, _)) =>
        if utf8Len c = 1 then pushStringGo s1 (acc || reset) rest
        else none

/-- `State::push_string_input`. -/
def State.push_string_input (s : State) (text : List Char) :
    Option (State × Except (String × Bool) Bool) :=
  pushStringGo s false text

/-- Feeding the colours of one full guess into the session one
`input_buffer` call at a time, stopping early on an error; the result
is the outcome of the last push. -/
def pushAll (s : State) : List Colour → State × Except String (Bool × Option (Nat × Nat))
  | [] => (s, .ok (false, none))
  | [c] => s.input_buffer c
  | c :: c2 :: rest =>
    match s.input_buffer c with
    | (s1, .ok _) => pushAll s1 (c2 :: rest)
    | (s1, .error e) => (s1, .error e)

/-- Submitting a list of full guesses in sequence; the result is the
outcome of the last submission. -/
def runGuesses (s : State) : List (List Colour) → State × Except String (Bool × Option (Nat × Nat))
  | [] => (s, .ok (false, none))
  | [g] => pushAll s g
  | g :: g2 :: rest =>
    match pushAll s g with
    | (s1, .ok _) => runGuesses s1 (g2 :: rest)
    | (s1, .error e) => (s1, .error e)

/-- Specification-side count of exact matches: the number of indices
`i` in `0..N` with `secret[i] == guess[i]`. -/
def exactCount (secret guess : List Colour) : Nat :=
  (List.range secret.length).countP
    (fun i => decide (secret.getD i Colour.Red = guess.getD i Colour.Red))

/-- Specification-side count of colour-only matches: the number of
indices `i` in `0..N` with `secret[i] != guess[i]` and `guess[i]`
occurring anywhere in `secret` (membership, not multiplicity). -/
def colorOnlyCount (secret guess : List Colour) : Nat :=
  (List.range secret.length).countP
    (fun i => decide (¬ secret.getD i Colour.Red = guess.getD i Colour.Red ∧
      guess.getD i Colour.Red ∈ secret))

/-- A freshly constructed two-peg session in non-duplicate terminal
mode with secret `[Red, Blue]` and no try limit; the state reached by
`State::new(2, false, None, .., true)` when the generator draws
`[Red, Blue]`. -/
def bugState : State :=
  { pegs := [Colour.Red, Colour.Blue], previously_chosen := [], previous_games := [],
    size_pegs := 2, allow_duplicates := false, buffered_input := [],
    max_tries := none, winCount := 0, loseCount := 0, terminal := true,
    rng := fun _ => 0, rngIdx := 0 }

/-- A two-peg duplicates-allowed terminal session with secret
`[Red, Blue]`, one colour already buffered and no try limit. -/
def ws2 : State :=
  { pegs := [Colour.Red, Colour.Blue], previously_chosen := [], previous_games := [],
    size_pegs := 2, allow_duplicates := true, buffered_input := [Colour.Red],
    max_tries := none, winCount := 0, loseCount := 0, terminal := true,
    rng := fun _ => 0, rngIdx := 0 }

/-- A fresh two-peg duplicates-allowed session with secret
`[Red, Blue]` and a one-try limit. -/
def ws5 : State :=
  { pegs := [Colour.Red, Colour.Blue], previously_chosen := [], previous_games := [],
    size_pegs := 2, allow_duplicates := true, buffered_input := [],
    max_tries := some 1, winCount := 0, loseCount := 0, terminal := false,
    rng := fun _ => 0, rngIdx := 0 }

/-- A two-peg non-duplicate session with secret `[Red, Blue]` and one
colour already buffered. -/
def ws6 : State :=
  { pegs := [Colour.Red, Colour.Blue], previously_chosen := [], previous_games := [],
    size_pegs := 2, allow_duplicates := false, buffered_input := [Colour.Red],
    max_tries := none, winCount := 0, loseCount := 0, terminal := false,
    rng := fun _ => 0, rngIdx := 0 }

/-- A two-peg non-duplicate terminal session with secret `[Red, Blue]`,
a one-try limit and one colour already buffered. -/
def ws10 : State :=
  { pegs := [Colour.Red, Colour.Blue], previously_chosen := [], previous_games := [],
    size_pegs := 2, allow_duplicates := false, buffered_input := [Colour.Red],
    max_tries := some 1, winCount := 0, loseCount := 0, terminal := true,
    rng := fun _ => 0, rngIdx := 0 }

lemma getD_mem_of_lt {l : List Colour} {j : Nat} (h : j < l.length) (d : Colour) :
    l.getD j d ∈ l := by
  induction l generalizing j with
  | nil => exact absurd h (by simp)
  | cons a t ih =>
    cases j with
    | zero => simp [List.getD_cons_zero]
    | succ m =>
      rw [List.getD_cons_succ]
      exact List.mem_cons_of_mem a (ih (by simpa [Nat.succ_lt_succ_iff] using h))

lemma countP_range_succ (n : Nat) (p : Nat → Bool) :
    (List.range (n + 1)).countP p =
      (if p 0 then 1 else 0) + (List.range n).countP (fun j => p (j + 1)) := by
  rw [List.range_succ_eq_map, List.countP_cons, List.countP_map, Nat.add_comm]
  rfl

lemma matchingGoDup_spec (pegs : List Colour) (l : List Colour) :
    ∀ (idx : Nat) (acc : Nat × Nat),
    matchingGoDup pegs idx acc l =
      (acc.1 + (List.range l.length).countP
          (fun j => decide (l.getD j Colour.Red ∈ pegs ∧
            pegs.getD (idx + j) Colour.Red = l.getD j Colour.Red)),
       acc.2 + (List.range l.length).countP
          (fun j => decide (l.getD j Colour.Red ∈ pegs ∧
            ¬ pegs.getD (idx + j) Colour.Red = l.getD j Colour.Red))) := by
  induction l with
  | nil => intro idx acc; simp [matchingGoDup]
  | cons v rest ih =>
    intro idx acc
    rw [matchingGoDup, ih]
    simp only [List.length_cons]
    rw [countP_range_succ, countP_range_succ]
    simp only [List.getD_cons_succ, List.getD_cons_zero, Nat.add_zero, ← Nat.add_assoc,
      Nat.add_right_comm]
    by_cases hmem : v ∈ pegs
    · by_cases heq : pegs.getD idx Colour.Red = v
      · have h1 : decide (v ∈ pegs ∧ pegs.getD idx Colour.Red = v) = true :=
          decide_eq_true ⟨hmem, heq⟩
        have h2 : decide (v ∈ pegs ∧ ¬ pegs.getD idx Colour.Red = v) = false :=
          decide_eq_false (fun hc => hc.2 heq)
        simp only [h1, h2, scorePos, if_pos hmem, if_pos heq]
        simp [Prod.ext_iff]
      · have h1 : decide (v ∈ pegs ∧ pegs.getD idx Colour.Red = v) = false :=
          decide_eq_false (fun hc => heq hc.2)
        have h2 : decide (v ∈ pegs ∧ ¬ pegs.getD idx Colour.Red = v) = true :=
          decide_eq_true ⟨hmem, heq⟩
        simp only [h1, h2, scorePos, if_pos hmem, if_neg heq]
        simp [Prod.ext_iff]
    · have h1 : decide (v ∈ pegs ∧ pegs.getD idx Colour.Red = v) = false :=
        decide_eq_false (fun hc => hmem hc.1)
      have h2 : decide (v ∈ pegs ∧ ¬ pegs.getD idx Colour.Red = v) = false :=
        decide_eq_false (fun hc => hmem hc.1)
      simp only [h1, h2, scorePos, if_neg hmem]
      simp [Prod.ext_iff]

lemma matchingGoNoDup_ok (pegs : List Colour) (l : List Colour) :
    ∀ (seen : List Colour) (idx : Nat) (acc : Nat × Nat),
    l.Nodup → (∀ x ∈ l, x ∉ seen) →
    matchingGoNoDup pegs seen idx acc l = .ok (matchingGoDup pegs idx acc l) := by
  induction l with
  | nil => intro seen idx acc _ _; rfl
  | cons v rest ih =>
    intro seen idx acc hnd hsn
    rw [matchingGoNoDup, matchingGoDup]
    rw [if_neg (hsn v (List.mem_cons_self v rest))]
    refine ih _ _ _ (List.nodup_cons.mp hnd).2 ?_
    intro x hx hmem
    rcases List.mem_append.mp hmem with h1 | h1
    · exact hsn x (List.mem_cons_of_mem v hx) h1
    · have hxv : x = v := List.mem_singleton.mp h1
      exact (List.nodup_cons.mp hnd).1 (hxv ▸ hx)

lemma matchingGoNoDup_err (pegs : List Colour) (l : List Colour) :
    ∀ (seen : List Colour) (idx : Nat) (acc : Nat × Nat),
    (¬ l.Nodup ∨ ∃ x ∈ l, x ∈ seen) →
    matchingGoNoDup pegs seen idx acc l = .error dupMsg := by
  induction l with
  | nil =>
    intro seen idx acc h
    rcases h with h | ⟨x, hx, _⟩
    · exact absurd List.nodup_nil h
    · exact absurd hx (List.not_mem_nil x)
  | cons v rest ih =>
    intro seen idx acc h
    rw [matchingGoNoDup]
    by_cases hv : v ∈ seen
    · rw [if_pos hv]
    · rw [if_neg hv]
      apply ih
      rcases h with h | ⟨x, hx, hxs⟩
      · by_cases hvr : v ∈ rest
        · exact Or.inr ⟨v, hvr, List.mem_append.mpr (Or.inr (List.mem_singleton.mpr rfl))⟩
        · refine Or.inl ?_
          intro hcon
          exact h (List.nodup_cons.mpr ⟨hvr, hcon⟩)
      · rcases List.mem_cons.mp hx with hxv | hxr
        · exact absurd (hxv ▸ hxs) hv
        · exact Or.inr ⟨x, hxr, List.mem_append.mpr (Or.inl hxs)⟩

lemma matchingPlayer_spec (dup : Bool) (secret guess : List Colour)
    (hlen : guess.length = secret.length) (hnd : dup = false → guess.Nodup) :
    matchingPlayer secret dup guess =
      .ok (exactCount secret guess, colorOnlyCount secret guess) := by
  have hfold : matchingGoDup secret 0 (0, 0) guess =
      (exactCount secret guess, colorOnlyCount secret guess) := by
    rw [matchingGoDup_spec]
    simp only [Nat.zero_add]
    unfold exactCount colorOnlyCount
    rw [← hlen]
    simp only [Prod.mk.injEq]
    constructor
    · apply List.countP_congr
      intro j hj
      have hjlt : j < secret.length := hlen ▸ List.mem_range.mp hj
      simp only [decide_eq_true_eq]
      constructor
      · exact fun hp => hp.2
      · intro hp
        exact ⟨hp ▸ getD_mem_of_lt hjlt Colour.Red, hp⟩
    · apply List.countP_congr
      intro j _
      simp only [decide_eq_true_eq]
      exact ⟨fun hp => ⟨hp.2, hp.1⟩, fun hp => ⟨hp.2, hp.1⟩⟩
  cases dup with
  | true => rw [show matchingPlayer secret true guess =
      .ok (matchingGoDup secret 0 (0, 0) guess) from rfl, hfold]
  | false =>
    have hok := matchingGoNoDup_ok secret guess [] 0 (0, 0) (hnd rfl)
      (fun x _ => List.not_mem_nil x)
    rw [show matchingPlayer secret false guess =
      matchingGoNoDup secret [] 0 (0, 0) guess from rfl, hok, hfold]

/-- Claim C4: for every secret and guess of equal length (the guess
duplicate-free when duplicates are disallowed), the evaluator returns
exact = the number of indices with `secret[i] == guess[i]` and
color_only = the number of indices with `secret[i] != guess[i]` and
`guess[i]` occurring anywhere in the secret (membership, not
multiplicity-aware). -/
theorem claim4 (dup : Bool) (secret guess : List Colour)
    (hlen : guess.length = secret.length) (hnd : dup = false → guess.Nodup) :
    matchingPlayer secret dup guess =
      .ok (exactCount secret guess, colorOnlyCount secret guess) :=
  matchingPlayer_spec dup secret guess hlen hnd

/-- Witness for C4 on the spec's own scenario: secret
`[Red, Red, Blue, Green]` versus guess `[Red, Green, Blue, Red]` with
duplicates allowed scores exact = 2 and color_only = 2. -/
theorem claim4_witness :
    [Colour.Red, Colour.Green, Colour.Blue, Colour.Red].length =
      [Colour.Red, Colour.Red, Colour.Blue, Colour.Green].length ∧
    matchingPlayer [Colour.Red, Colour.Red, Colour.Blue, Colour.Green] true
        [Colour.Red, Colour.Green, Colour.Blue, Colour.Red] =
      .ok (exactCount [Colour.Red, Colour.Red, Colour.Blue, Colour.Green]
             [Colour.Red, Colour.Green, Colour.Blue, Colour.Red],
           colorOnlyCount [Colour.Red, Colour.Red, Colour.Blue, Colour.Green]
             [Colour.Red, Colour.Green, Colour.Blue, Colour.Red]) ∧
    exactCount [Colour.Red, Colour.Red, Colour.Blue, Colour.Green]
      [Colour.Red, Colour.Green, Colour.Blue, Colour.Red] = 2 ∧
    colorOnlyCount [Colour.Red, Colour.Red, Colour.Blue, Colour.Green]
      [Colour.Red, Colour.Green, Colour.Blue, Colour.Red] = 2 :=
  ⟨by decide, claim4 true _ _ (by decide) (by decide), by decide, by decide⟩

/-- Claim C7: with duplicates disallowed, evaluating any guess (of the
secret's length) that contains a repeated colour returns the
duplicate error and never a score. -/
theorem claim7 (secret guess : List Colour) (hlen : guess.length = secret.length)
    (hdup : ¬ guess.Nodup) :
    matchingPlayer secret false guess = .error dupMsg := by
  rw [show matchingPlayer secret false guess =
    matchingGoNoDup secret [] 0 (0, 0) guess from rfl]
  exact matchingGoNoDup_err secret guess [] 0 (0, 0) (Or.inl hdup)

/-- Witness for C7: guess `[Red, Red]` against secret `[Red, Blue]` in
non-duplicate mode is rejected with the duplicate error. -/
theorem claim7_witness :
    [Colour.Red, Colour.Red].length = [Colour.Red, Colour.Blue].length ∧
    ¬ [Colour.Red, Colour.Red].Nodup ∧
    matchingPlayer [Colour.Red, Colour.Blue] false [Colour.Red, Colour.Red] =
      .error dupMsg :=
  ⟨by decide, by decide, claim7 _ _ (by decide) (by decide)⟩

/-- Counterexample to C8 as stated: in non-duplicate mode a secret
that itself repeats a colour is rejected when evaluated against
itself, instead of scoring `(len, 0)`. -/
theorem claim8_counterexample :
    matchingPlayer [Colour.Red, Colour.Red] false [Colour.Red, Colour.Red] =
      .error dupMsg ∧
    ¬ matchingPlayer [Colour.Red, Colour.Red] false [Colour.Red, Colour.Red] =
      .ok ([Colour.Red, Colour.Red].length, 0) := by
  refine ⟨rfl, ?_⟩
  intro h
  rw [show matchingPlayer [Colour.Red, Colour.Red] false [Colour.Red, Colour.Red] =
    .error dupMsg from rfl] at h
  exact Except.noConfusion h

/-- Claim C8 (amended): evaluating the secret against itself returns
`(len(secret), 0)` for every mode, provided the secret is
duplicate-free whenever duplicates are disallowed. -/
theorem claim8 (dup : Bool) (secret : List Colour) (hnd : dup = false → secret.Nodup) :
    matchingPlayer secret dup secret = .ok (secret.length, 0) := by
  have he : exactCount secret secret = secret.length := by
    unfold exactCount
    conv_rhs => rw [← List.length_range secret.length]
    rw [List.countP_eq_length]
    intro a _
    simp
  have hc : colorOnlyCount secret secret = 0 := by
    unfold colorOnlyCount
    apply List.countP_eq_zero.mpr
    intro a _
    simp
  rw [matchingPlayer_spec dup secret secret rfl hnd, he, hc]

/-- Witness for C8: a duplicate-free secret in non-duplicate mode
scores `(2, 0)` against itself. -/
theorem claim8_witness :
    ((false : Bool) = false → [Colour.Red, Colour.Blue].Nodup) ∧
    matchingPlayer [Colour.Red, Colour.Blue] false [Colour.Red, Colour.Blue] =
      .ok ([Colour.Red, Colour.Blue].length, 0) :=
  ⟨by decide, claim8 false _ (by decide)⟩

lemma charToColour_ascii {c : Char} {col : Colour} (h : charToColour c = .ok col) :
    c.toNat ≤ 127 := by
  unfold charToColour at h
  split_ifs at h with h1 h2 h3 h4 h5 h6
  · subst h1; decide
  · subst h2; decide
  · subst h3; decide
  · subst h4; decide
  · subst h5; decide
  · subst h6; decide

lemma from_str_ascii {c : Char} {rest : List Char} {col : Colour}
    (h : Colour.from_str (c :: rest) = .ok col) : utf8Len c = 1 := by
  rw [show Colour.from_str (c :: rest) = charToColour (toAsciiLowercase c) from rfl] at h
  have hle : c.toNat ≤ 127 := by
    by_cases hr : 65 ≤ c.toNat ∧ c.toNat ≤ 90
    · omega
    · rw [show toAsciiLowercase c = c from by unfold toAsciiLowercase; rw [if_neg hr]] at h
      exact charToColour_ascii h
  unfold utf8Len
  rw [if_pos (by omega)]

/-- Claim C9: `push_string_input` is total for every input string and
every session state: parsing stops with an error before the byte
slice whenever the leading character is not a colour letter, and a
successfully parsed leading character is a single ASCII byte, so the
slice `text[1..]` always falls on a character boundary and the
function never reaches the panic case (modelled as `none`). -/
theorem claim9 (s : State) (text : List Char) : s.push_string_input text ≠ none := by
  rw [show s.push_string_input text = pushStringGo s false text from rfl]
  have main : ∀ (s1 : State) (acc : Bool), pushStringGo s1 acc text ≠ none := by
    induction text with
    | nil => intro s1 acc; rw [pushStringGo]; exact fun h => Option.noConfusion h
    | cons c rest ih =>
      intro s1 acc
      cases hparse : Colour.from_str (c :: rest) with
      | error e => simp [pushStringGo, hparse]
      | ok col =>
        have h1 : utf8Len c = 1 := from_str_ascii hparse
        rcases hib : s1.input_buffer col with ⟨s2, r⟩
        cases r with
        | error e => simp [pushStringGo, hparse, hib]
        | ok pr =>
          rcases pr with ⟨reset, sc⟩
          simp only [pushStringGo, hparse, hib]
          rw [if_pos h1]
          exact ih s2 (acc || reset)
  exact main s false

lemma genDup_length (rng : Nat → Nat) (n : Nat) : ∀ i, (genDup rng i n).length = n := by
  induction n with
  | zero => intro i; rfl
  | succ m ih => intro i; simp [genDup, ih]

lemma genNoDup_length (rng : Nat → Nat) (n : Nat) :
    ∀ i avail, (genNoDup rng i avail n).length = n := by
  induction n with
  | zero => intro i avail; rfl
  | succ m ih => intro i avail; simp [genNoDup, ih]

lemma generate_new_pegs_length (size : Nat) (dup : Bool) (rng : Nat → Nat) (i : Nat) :
    (generate_new_pegs size dup rng i).length = size := by
  unfold generate_new_pegs
  cases dup with
  | true => rw [if_pos rfl]; exact genDup_length rng size i
  | false => rw [if_neg (by simp)]; exact genNoDup_length rng size i COLOURS

lemma getD_not_mem_eraseIdx (l : List Colour) : ∀ (j : Nat), l.Nodup → j < l.length →
    l.getD j Colour.Red ∉ l.eraseIdx j := by
  induction l with
  | nil => intro j _ hj; exact absurd hj (by simp)
  | cons a t ih =>
    intro j hnd hj
    cases j with
    | zero =>
      rw [List.getD_cons_zero, List.eraseIdx_cons_zero]
      exact (List.nodup_cons.mp hnd).1
    | succ m =>
      rw [List.getD_cons_succ, List.eraseIdx_cons_succ]
      have hm : m < t.length := by
        rw [List.length_cons] at hj; omega
      intro hcon
      rcases List.mem_cons.mp hcon with heq | hin
      · exact (List.nodup_cons.mp hnd).1 (heq ▸ getD_mem_of_lt hm Colour.Red)
      · exact ih m (List.nodup_cons.mp hnd).2 hm hin

lemma genNoDup_subset (rng : Nat → Nat) (n : Nat) : ∀ (i : Nat) (avail : List Colour),
    n ≤ avail.length → ∀ x ∈ genNoDup rng i avail n, x ∈ avail := by
  induction n with
  | zero => intro i avail _ x hx; exact absurd hx (by simp [genNoDup])
  | succ m ih =>
    intro i avail hle x hx
    have hpos : 0 < avail.length := by omega
    have hj : rng i % avail.length < avail.length := Nat.mod_lt _ hpos
    rw [genNoDup] at hx
    rcases List.mem_cons.mp hx with heq | hx2
    · exact heq ▸ getD_mem_of_lt hj Colour.Red
    · have hlen2 : m ≤ (avail.eraseIdx (rng i % avail.length)).length := by
        rw [List.length_eraseIdx_of_lt hj]; omega
      exact (List.eraseIdx_sublist avail (rng i % avail.length)).subset (ih _ _ hlen2 x hx2)

lemma genNoDup_nodup (rng : Nat → Nat) (n : Nat) : ∀ (i : Nat) (avail : List Colour),
    avail.Nodup → n ≤ avail.length → (genNoDup rng i avail n).Nodup := by
  induction n with
  | zero => intro i avail _ _; simp [genNoDup]
  | succ m ih =>
    intro i avail hnd hle
    have hpos : 0 < avail.length := by omega
    have hj : rng i % avail.length < avail.length := Nat.mod_lt _ hpos
    have herase : (avail.eraseIdx (rng i % avail.length)).length = avail.length - 1 :=
      List.length_eraseIdx_of_lt hj
    rw [genNoDup, List.nodup_cons]
    constructor
    · intro hmem
      exact getD_not_mem_eraseIdx avail _ hnd hj
        (genNoDup_subset rng m _ _ (by omega) _ hmem)
    · exact ih _ _ (List.Nodup.sublist (List.eraseIdx_sublist avail _) hnd) (by omega)

lemma generate_new_pegs_nodup (size : Nat) (rng : Nat → Nat) (i : Nat)
    (h : size ≤ COLOURS.length) : (generate_new_pegs size false rng i).Nodup := by
  rw [show generate_new_pegs size false rng i = genNoDup rng i COLOURS size from by
    unfold generate_new_pegs; rw [if_neg (by simp)]]
  exact genNoDup_nodup rng size i COLOURS (by decide) h

lemma matching_ok_of_valid (s : State)
    (hvalid : s.allow_duplicates = true ∨ s.buffered_input.Nodup) :
    s.matching none = .ok (matchingGoDup s.pegs 0 (0, 0) s.buffered_input) := by
  rw [show s.matching none = matchingPlayer s.pegs s.allow_duplicates s.buffered_input from rfl]
  rcases hvalid with hd | hnd
  · rw [hd]
    rfl
  · cases hd2 : s.allow_duplicates with
    | true => rfl
    | false =>
      exact matchingGoNoDup_ok s.pegs s.buffered_input [] 0 (0, 0) hnd
        (fun x _ => List.not_mem_nil x)

lemma finish_try_win (s : State) (h : s.buffered_input = s.pegs) :
    s.finish_try =
      ({ s with
          previously_chosen := []
          buffered_input := []
          previous_games := s.previous_games ++ [(s.pegs, s.previously_chosen.length, true)]
          winCount := s.winCount + 1
          pegs := generate_new_pegs s.size_pegs s.allow_duplicates s.rng s.rngIdx
          rngIdx := s.rngIdx + s.size_pegs }, .ok (true, none)) := by
  unfold State.finish_try
  rw [if_pos h]
  rfl

lemma finish_try_lose (s : State) (hne : s.buffered_input ≠ s.pegs)
    (hmax : s.max_tries.getD USIZE_MAX = s.previously_chosen.length + 1) :
    s.finish_try =
      ({ s with
          previously_chosen := []
          buffered_input := []
          previous_games := s.previous_games ++ [(s.pegs, s.previously_chosen.length, false)]
          loseCount := s.loseCount + 1
          pegs := generate_new_pegs s.size_pegs s.allow_duplicates s.rng s.rngIdx
          rngIdx := s.rngIdx + s.size_pegs }, .ok (true, none)) := by
  unfold State.finish_try
  rw [if_neg hne, if_pos hmax]
  rfl

lemma finish_try_continue (s : State) (hne : s.buffered_input ≠ s.pegs)
    (hmax : ¬ s.max_tries.getD USIZE_MAX = s.previously_chosen.length + 1)
    (hvalid : s.allow_duplicates = true ∨ s.buffered_input.Nodup ∨ s.terminal = false) :
    s.finish_try =
      ({ s with
          previously_chosen := s.previously_chosen ++ [s.buffered_input]
          buffered_input := [] },
       .ok (false, if s.terminal then some (matchingGoDup s.pegs 0 (0, 0) s.buffered_input)
          else none)) := by
  unfold State.finish_try
  rw [if_neg hne, if_neg hmax]
  cases ht : s.terminal with
  | false => rfl
  | true =>
    have hm := matching_ok_of_valid s (by
      rcases hvalid with h | h | h
      · exact Or.inl h
      · exact Or.inr h
      · rw [h] at ht; exact Bool.noConfusion ht)
    rw [hm]
    rfl

lemma input_buffer_full (s : State) (v : Colour)
    (h : s.buffered_input.length + 1 = s.size_pegs) :
    s.input_buffer v = State.finish_try { s with buffered_input := s.buffered_input ++ [v] } := by
  have hc : (s.buffered_input ++ [v]).length = s.size_pegs := by
    rw [List.length_append, List.length_singleton]; exact h
  simp only [State.input_buffer]
  rw [if_pos hc]

lemma input_buffer_incomplete (s : State) (v : Colour)
    (h : ¬ s.buffered_input.length + 1 = s.size_pegs) :
    s.input_buffer v =
      ({ s with buffered_input := s.buffered_input ++ [v] }, .ok (false, none)) := by
  have hc : ¬ (s.buffered_input ++ [v]).length = s.size_pegs := by
    rw [List.length_append, List.length_singleton]; exact h
  simp only [State.input_buffer]
  rw [if_neg hc]

/-- Counterexample to C2 as stated: in non-duplicate terminal mode,
completing the buffer with a guess that repeats a colour — although
the guess differs from the secret and no try limit is near — returns
the duplicate error and does not append the guess to the attempt
history, instead of scoring and reporting a continuing round. -/
theorem claim2_counterexample :
    [Colour.Red, Colour.Red] ≠ bugState.pegs ∧
    bugState.max_tries = none ∧
    (bugState.input_buffer Colour.Red).1.buffered_input = [Colour.Red] ∧
    ((bugState.input_buffer Colour.Red).1.input_buffer Colour.Red).2 = .error dupMsg ∧
    ((bugState.input_buffer Colour.Red).1.input_buffer Colour.Red).1.previously_chosen = [] :=
  ⟨by decide, rfl, rfl, rfl, rfl⟩

/-- Claim C2 (amended): for every session whose buffer reaches N with
a guess that is neither the secret nor the final allowed try, and
that does not trip the duplicate check when one would run (duplicates
allowed, or the guess duplicate-free, or terminal reporting off), the
session appends the guess to the attempt history, increments the try
count by one, stays in progress with all hooks, histories and the
secret untouched, and reports a continuing round; the score is
computed and reported via the evaluator exactly when terminal
reporting is on. -/
theorem claim2 (s : State) (v : Colour)
    (hlen : s.buffered_input.length + 1 = s.size_pegs)
    (hne : s.buffered_input ++ [v] ≠ s.pegs)
    (hmax : ¬ s.max_tries.getD USIZE_MAX = s.previously_chosen.length + 1)
    (hvalid : s.allow_duplicates = true ∨ (s.buffered_input ++ [v]).Nodup ∨
      s.terminal = false) :
    s.input_buffer v =
      ({ s with
          previously_chosen := s.previously_chosen ++ [s.buffered_input ++ [v]]
          buffered_input := [] },
       .ok (false, if s.terminal then
          some (matchingGoDup s.pegs 0 (0, 0) (s.buffered_input ++ [v])) else none)) ∧
    (s.terminal = true →
      State.matching { s with buffered_input := s.buffered_input ++ [v] } none =
        .ok (matchingGoDup s.pegs 0 (0, 0) (s.buffered_input ++ [v]))) := by
  constructor
  · rw [input_buffer_full s v hlen,
      finish_try_continue { s with buffered_input := s.buffered_input ++ [v] } hne hmax hvalid]
  · intro ht
    apply matching_ok_of_valid
    rcases hvalid with h | h | h
    · exact Or.inl h
    · exact Or.inr h
    · rw [h] at ht; exact Bool.noConfusion ht

/-- Witness for C2 at a concrete session: duplicates allowed, secret
`[Red, Blue]`, buffer `[Red]`, pushing `Red` completes the guess
`[Red, Red]`, which is recorded and scored `(1, 1)`. -/
theorem claim2_witness :
    ws2.buffered_input.length + 1 = ws2.size_pegs ∧
    ws2.buffered_input ++ [Colour.Red] ≠ ws2.pegs ∧
    ¬ ws2.max_tries.getD USIZE_MAX = ws2.previously_chosen.length + 1 ∧
    (ws2.allow_duplicates = true ∨ (ws2.buffered_input ++ [Colour.Red]).Nodup ∨
      ws2.terminal = false) ∧
    (ws2.input_buffer Colour.Red =
      ({ ws2 with
          previously_chosen := ws2.previously_chosen ++ [ws2.buffered_input ++ [Colour.Red]]
          buffered_input := [] },
       .ok (false, if ws2.terminal then
          some (matchingGoDup ws2.pegs 0 (0, 0) (ws2.buffered_input ++ [Colour.Red]))
          else none)) ∧
     (ws2.terminal = true →
      State.matching { ws2 with buffered_input := ws2.buffered_input ++ [Colour.Red] } none =
        .ok (matchingGoDup ws2.pegs 0 (0, 0) (ws2.buffered_input ++ [Colour.Red])))) :=
  ⟨by decide, by decide, by decide, by decide,
    claim2 ws2 Colour.Red (by decide) (by decide) (by decide) (by decide)⟩

/-- Claim C6: completing the buffer with a guess equal to the current
secret fires the win hook exactly once, appends the single record
`(secret, try_count, true)` to the game history, clears the buffer
and the attempt history (try count back to 0), regenerates a secret
of the same length and mode, and reports a finished game. -/
theorem claim6 (s : State) (v : Colour)
    (hlen : s.buffered_input.length + 1 = s.size_pegs)
    (heq : s.buffered_input ++ [v] = s.pegs)
    (hsize : s.size_pegs ≤ COLOURS.length) :
    s.input_buffer v =
      ({ s with
          previously_chosen := []
          buffered_input := []
          previous_games := s.previous_games ++ [(s.pegs, s.previously_chosen.length, true)]
          winCount := s.winCount + 1
          pegs := generate_new_pegs s.size_pegs s.allow_duplicates s.rng s.rngIdx
          rngIdx := s.rngIdx + s.size_pegs }, .ok (true, none)) ∧
    (generate_new_pegs s.size_pegs s.allow_duplicates s.rng s.rngIdx).length = s.size_pegs ∧
    (s.allow_duplicates = false →
      (generate_new_pegs s.size_pegs s.allow_duplicates s.rng s.rngIdx).Nodup) := by
  refine ⟨?_, generate_new_pegs_length s.size_pegs s.allow_duplicates s.rng s.rngIdx, ?_⟩
  · rw [input_buffer_full s v hlen]
    exact finish_try_win { s with buffered_input := s.buffered_input ++ [v] } heq
  · intro hd
    rw [hd]
    exact generate_new_pegs_nodup s.size_pegs s.rng s.rngIdx hsize

/-- Witness for C6: pushing `Blue` onto buffer `[Red]` in a two-peg
non-duplicate session with secret `[Red, Blue]` wins the game, records
`([Red, Blue], 0, true)` and resets with a fresh duplicate-free
two-colour secret. -/
theorem claim6_witness :
    ws6.buffered_input.length + 1 = ws6.size_pegs ∧
    ws6.buffered_input ++ [Colour.Blue] = ws6.pegs ∧
    ws6.size_pegs ≤ COLOURS.length ∧
    (ws6.input_buffer Colour.Blue =
      ({ ws6 with
          previously_chosen := []
          buffered_input := []
          previous_games := ws6.previous_games ++
            [(ws6.pegs, ws6.previously_chosen.length, true)]
          winCount := ws6.winCount + 1
          pegs := generate_new_pegs ws6.size_pegs ws6.allow_duplicates ws6.rng ws6.rngIdx
          rngIdx := ws6.rngIdx + ws6.size_pegs }, .ok (true, none)) ∧
     (generate_new_pegs ws6.size_pegs ws6.allow_duplicates ws6.rng ws6.rngIdx).length =
        ws6.size_pegs ∧
     (ws6.allow_duplicates = false →
      (generate_new_pegs ws6.size_pegs ws6.allow_duplicates ws6.rng ws6.rngIdx).Nodup)) :=
  ⟨by decide, by decide, by decide,
    claim6 ws6 Colour.Blue (by decide) (by decide) (by decide)⟩

/-- Claim C10: the win and try-exhaustion checks precede duplicate
validation: in non-duplicate mode with a try limit, completing the
final allowed try with a non-secret guess that repeats a colour still
fires the lose hook, records the loss and resets, rather than
rejecting the guess with a duplicate error. -/
theorem claim10 (s : State) (v : Colour) (k : Nat)
    (hdupmode : s.allow_duplicates = false)
    (hmaxk : s.max_tries = some k)
    (hcount : s.previously_chosen.length + 1 = k)
    (hlen : s.buffered_input.length + 1 = s.size_pegs)
    (hne : s.buffered_input ++ [v] ≠ s.pegs)
    (hdup : ¬ (s.buffered_input ++ [v]).Nodup) :
    s.input_buffer v =
      ({ s with
          previously_chosen := []
          buffered_input := []
          previous_games := s.previous_games ++ [(s.pegs, k - 1, false)]
          loseCount := s.loseCount + 1
          pegs := generate_new_pegs s.size_pegs s.allow_duplicates s.rng s.rngIdx
          rngIdx := s.rngIdx + s.size_pegs }, .ok (true, none)) := by
  rw [input_buffer_full s v hlen]
  have hm : ({ s with buffered_input := s.buffered_input ++ [v] } : State).max_tries.getD
      USIZE_MAX =
      ({ s with buffered_input := s.buffered_input ++ [v] } : State).previously_chosen.length
        + 1 := by
    show s.max_tries.getD USIZE_MAX = s.previously_chosen.length + 1
    rw [hmaxk]
    simpa using hcount.symm
  rw [finish_try_lose _ hne hm]
  rw [show k - 1 = s.previously_chosen.length from by omega]

/-- Witness for C10: on the last allowed try, the duplicated
non-secret guess `[Red, Red]` loses the game (no duplicate error), is
recorded as `([Red, Blue], 0, false)`, and the session resets. -/
theorem claim10_witness :
    ws10.allow_duplicates = false ∧
    ws10.max_tries = some 1 ∧
    ws10.previously_chosen.length + 1 = 1 ∧
    ws10.buffered_input.length + 1 = ws10.size_pegs ∧
    ws10.buffered_input ++ [Colour.Red] ≠ ws10.pegs ∧
    ¬ (ws10.buffered_input ++ [Colour.Red]).Nodup ∧
    ws10.input_buffer Colour.Red =
      ({ ws10 with
          previously_chosen := []
          buffered_input := []
          previous_games := ws10.previous_games ++ [(ws10.pegs, 1 - 1, false)]
          loseCount := ws10.loseCount + 1
          pegs := generate_new_pegs ws10.size_pegs ws10.allow_duplicates ws10.rng ws10.rngIdx
          rngIdx := ws10.rngIdx + ws10.size_pegs }, .ok (true, none)) :=
  ⟨by decide, rfl, by decide, by decide, by decide, by decide,
    claim10 ws10 Colour.Red 1 (by decide) rfl (by decide) (by decide) (by decide) (by decide)⟩

lemma pushAll_full (g : List Colour) : ∀ (s : State), g ≠ [] →
    s.buffered_input.length + g.length = s.size_pegs →
    pushAll s g = State.finish_try { s with buffered_input := s.buffered_input ++ g } := by
  induction g with
  | nil => intro s h _; exact absurd rfl h
  | cons c rest ih =>
    intro s _ hlen
    cases rest with
    | nil =>
      rw [show pushAll s [c] = s.input_buffer c from rfl]
      rw [input_buffer_full s c (by simpa using hlen)]
    | cons c2 rs =>
      have hne : ¬ s.buffered_input.length + 1 = s.size_pegs := by
        simp only [List.length_cons] at hlen; omega
      rw [show pushAll s (c :: c2 :: rs) =
        (match s.input_buffer c with
         | (s1, .ok _) => pushAll s1 (c2 :: rs)
         | (s1, .error e) => (s1, .error e)) from rfl]
      rw [input_buffer_incomplete s c hne]
      show pushAll { s with buffered_input := s.buffered_input ++ [c] } (c2 :: rs) = _
      rw [ih { s with buffered_input := s.buffered_input ++ [c] } (by simp) (by
        show (s.buffered_input ++ [c]).length + (c2 :: rs).length = s.size_pegs
        rw [List.length_append, List.length_singleton]
        simp only [List.length_cons] at hlen ⊢
        omega)]
      show State.finish_try
        { s with buffered_input := (s.buffered_input ++ [c]) ++ (c2 :: rs) } = _
      rw [show (s.buffered_input ++ [c]) ++ (c2 :: rs) = s.buffered_input ++ (c :: c2 :: rs)
        from by rw [List.append_assoc]; rfl]

lemma runGuesses_lose (gs : List (List Colour)) : ∀ (s : State), gs ≠ [] →
    s.max_tries = some (s.previously_chosen.length + gs.length) →
    s.buffered_input = [] → 0 < s.size_pegs →
    (∀ g ∈ gs, g.length = s.size_pegs) →
    (∀ g ∈ gs, g ≠ s.pegs) →
    (∀ g ∈ gs, s.allow_duplicates = true ∨ g.Nodup ∨ s.terminal = false) →
    runGuesses s gs =
      ({ s with
          previously_chosen := []
          buffered_input := []
          previous_games := s.previous_games ++
            [(s.pegs, s.previously_chosen.length + (gs.length - 1), false)]
          loseCount := s.loseCount + 1
          pegs := generate_new_pegs s.size_pegs s.allow_duplicates s.rng s.rngIdx
          rngIdx := s.rngIdx + s.size_pegs }, .ok (true, none)) := by
  induction gs with
  | nil => intro s h; exact absurd rfl h
  | cons g rest ih =>
    intro s _ hmax hbuf hpos hlen hne hvalid
    have hg : g.length = s.size_pegs := hlen g (List.mem_cons_self g rest)
    have hgne : g ≠ [] := by
      intro h0
      rw [h0] at hg
      simp at hg
      omega
    have hfull : s.buffered_input.length + g.length = s.size_pegs := by
      rw [hbuf]
      simpa using hg
    have hbg : s.buffered_input ++ g = g := by rw [hbuf]; rfl
    cases rest with
    | nil =>
      rw [show runGuesses s [g] = pushAll s g from rfl, pushAll_full g s hgne hfull]
      have hmx : ({ s with buffered_input := s.buffered_input ++ g } : State).max_tries.getD
          USIZE_MAX =
          ({ s with buffered_input := s.buffered_input ++ g } :
            State).previously_chosen.length + 1 := by
        show s.max_tries.getD USIZE_MAX = s.previously_chosen.length + 1
        rw [hmax]
        simp
      have hnep : ({ s with buffered_input := s.buffered_input ++ g } : State).buffered_input
          ≠ ({ s with buffered_input := s.buffered_input ++ g } : State).pegs := by
        show s.buffered_input ++ g ≠ s.pegs
        rw [hbg]
        exact hne g (List.mem_cons_self g [])
      rw [finish_try_lose _ hnep hmx]
      rfl
    | cons g2 rs =>
      rw [show runGuesses s (g :: g2 :: rs) =
        (match pushAll s g with
         | (s1, .ok _) => runGuesses s1 (g2 :: rs)
         | (s1, .error e) => (s1, .error e)) from rfl]
      rw [pushAll_full g s hgne hfull]
      have hnep : ({ s with buffered_input := s.buffered_input ++ g } : State).buffered_input
          ≠ ({ s with buffered_input := s.buffered_input ++ g } : State).pegs := by
        show s.buffered_input ++ g ≠ s.pegs
        rw [hbg]
        exact hne g (List.mem_cons_self g (g2 :: rs))
      have hmx2 : ¬ ({ s with buffered_input := s.buffered_input ++ g } :
            State).max_tries.getD USIZE_MAX =
          ({ s with buffered_input := s.buffered_input ++ g } :
            State).previously_chosen.length + 1 := by
        show ¬ s.max_tries.getD USIZE_MAX = s.previously_chosen.length + 1
        rw [hmax]
        simp only [Option.getD_some, List.length_cons]
        omega
      have hv : ({ s with buffered_input := s.buffered_input ++ g } :
            State).allow_duplicates = true ∨
          ({ s with buffered_input := s.buffered_input ++ g } :
            State).buffered_input.Nodup ∨
          ({ s with buffered_input := s.buffered_input ++ g } : State).terminal = false := by
        show s.allow_duplicates = true ∨ (s.buffered_input ++ g).Nodup ∨ s.terminal = false
        rw [hbg]
        exact hvalid g (List.mem_cons_self g (g2 :: rs))
      rw [finish_try_continue _ hnep hmx2 hv]
      show runGuesses
        ({ s with
            previously_chosen := s.previously_chosen ++ [s.buffered_input ++ g]
            buffered_input := [] }) (g2 :: rs) = _
      rw [hbg]
      have harith : s.previously_chosen.length + ((g :: g2 :: rs).length - 1)
          = (s.previously_chosen ++ [g]).length + ((g2 :: rs).length - 1) := by
        simp only [List.length_append, List.length_cons, List.length_singleton,
          List.length_nil]
        omega
      rw [harith]
      rw [ih { s with
            previously_chosen := s.previously_chosen ++ [g]
            buffered_input := [] }
        (by simp)
        (by
          show s.max_tries = some ((s.previously_chosen ++ [g]).length + (g2 :: rs).length)
          rw [hmax]
          simp only [List.length_append, List.length_cons, List.length_singleton,
            List.length_nil]
          rw [show s.previously_chosen.length + (rs.length + 1 + 1)
            = s.previously_chosen.length + 1 + (rs.length + 1) from by omega])
        rfl hpos
        (fun g3 h3 => hlen g3 (List.mem_cons_of_mem g h3))
        (fun g3 h3 => hne g3 (List.mem_cons_of_mem g h3))
        (fun g3 h3 => hvalid g3 (List.mem_cons_of_mem g h3))]

/-- Claim C5: with `max_tries = k`, a freshly started game that
receives k consecutive valid full-length guesses, none equal to the
secret, fires the lose hook exactly once (on the k-th guess), appends
exactly one record `(secret, k - 1, false)` to the game history, and
resets to a fresh in-progress state with a newly generated secret. -/
theorem claim5 (s : State) (k : Nat) (gs : List (List Colour))
    (hmaxk : s.max_tries = some k) (hk : gs.length = k)
    (hprev : s.previously_chosen = []) (hbuf : s.buffered_input = [])
    (hkpos : 0 < k) (hpos : 0 < s.size_pegs)
    (hlen : ∀ g ∈ gs, g.length = s.size_pegs)
    (hne : ∀ g ∈ gs, g ≠ s.pegs)
    (hvalid : ∀ g ∈ gs, s.allow_duplicates = true ∨ g.Nodup ∨ s.terminal = false) :
    runGuesses s gs =
      ({ s with
          previously_chosen := []
          buffered_input := []
          previous_games := s.previous_games ++ [(s.pegs, k - 1, false)]
          loseCount := s.loseCount + 1
          pegs := generate_new_pegs s.size_pegs s.allow_duplicates s.rng s.rngIdx
          rngIdx := s.rngIdx + s.size_pegs }, .ok (true, none)) := by
  have h1 := runGuesses_lose gs s
    (by intro h0; rw [h0] at hk; simp at hk; omega)
    (by rw [hmaxk, hprev, hk]; simp)
    hbuf hpos hlen hne hvalid
  rw [h1, hprev, hk]
  simp

/-- Witness for C5 at `max_tries = 1`: the single non-matching guess
`[Green, Green]` loses the game at once, records
`([Red, Blue], 0, false)` and resets. -/
theorem claim5_witness :
    ws5.max_tries = some 1 ∧
    [[Colour.Green, Colour.Green]].length = 1 ∧
    ws5.previously_chosen = [] ∧
    ws5.buffered_input = [] ∧
    (0 : Nat) < 1 ∧
    0 < ws5.size_pegs ∧
    (∀ g ∈ [[Colour.Green, Colour.Green]], g.length = ws5.size_pegs) ∧
    (∀ g ∈ [[Colour.Green, Colour.Green]], g ≠ ws5.pegs) ∧
    (∀ g ∈ [[Colour.Green, Colour.Green]],
      ws5.allow_duplicates = true ∨ g.Nodup ∨ ws5.terminal = false) ∧
    runGuesses ws5 [[Colour.Green, Colour.Green]] =
      ({ ws5 with
          previously_chosen := []
          buffered_input := []
          previous_games := ws5.previous_games ++ [(ws5.pegs, 1 - 1, false)]
          loseCount := ws5.loseCount + 1
          pegs := generate_new_pegs ws5.size_pegs ws5.allow_duplicates ws5.rng ws5.rngIdx
          rngIdx := ws5.rngIdx + ws5.size_pegs }, .ok (true, none)) :=
  ⟨rfl, rfl, rfl, rfl, by decide, by decide, by decide, by decide, by decide,
    claim5 ws5 1 [[Colour.Green, Colour.Green]] rfl rfl rfl rfl (by decide) (by decide)
      (by decide) (by decide) (by decide)⟩

/-- Claim C1 is violated by the code (code bug): in non-duplicate
terminal mode, when the push that fills the buffer resolves to the
duplicate error, `finish_try` returns before draining, so the buffer
is left holding all N colours; afterwards its length can only exceed
N and no later push ever triggers a resolution again. -/
theorem claim1_bug :
    (bugState.input_buffer Colour.Red).2 = .ok (false, none) ∧
    (bugState.input_buffer Colour.Red).1.buffered_input = [Colour.Red] ∧
    ((bugState.input_buffer Colour.Red).1.input_buffer Colour.Red).2 = .error dupMsg ∧
    ((bugState.input_buffer Colour.Red).1.input_buffer Colour.Red).1.buffered_input =
      [Colour.Red, Colour.Red] ∧
    ((bugState.input_buffer Colour.Red).1.input_buffer Colour.Red).1.size_pegs = 2 ∧
    ((((bugState.input_buffer Colour.Red).1.input_buffer Colour.Red).1.input_buffer
        Colour.Green).2 = .ok (false, none) ∧
     (((bugState.input_buffer Colour.Red).1.input_buffer Colour.Red).1.input_buffer
        Colour.Green).1.buffered_input = [Colour.Red, Colour.Red, Colour.Green]) :=
  ⟨rfl, rfl, rfl, rfl, rfl, rfl, rfl⟩

/-- Claim C3 is violated by the code (code bug): the duplicate-error
resolution is not atomic — the error is returned, yet the buffer has
been mutated (it grew to the full guess and was not drained), so the
guess is neither fully rejected nor fully applied. -/
theorem claim3_bug :
    ((bugState.input_buffer Colour.Red).1.input_buffer Colour.Red).2 = .error dupMsg ∧
    ((bugState.input_buffer Colour.Red).1.input_buffer Colour.Red).1.buffered_input ≠
      (bugState.input_buffer Colour.Red).1.buffered_input ∧
    ((bugState.input_buffer Colour.Red).1.input_buffer Colour.Red).1.buffered_input ≠ [] ∧
    ((bugState.input_buffer Colour.Red).1.input_buffer Colour.Red).1.previously_chosen =
      (bugState.input_buffer Colour.Red).1.previously_chosen :=
  ⟨rfl, by decide, by decide, rfl⟩
